import Mathlib

/-!
Verification development for the qgis-plugins repository
(`create_index.py` and `install_plugins.py`).

Python strings are embedded as `List Char` (named `Str`); every string
primitive the scripts use (`endswith`, `in`, `lower`, `strip`, `split`,
comparison) is given a structurally recursive, kernel-computable
definition mirroring Python semantics on the inputs the scripts handle.
-/

abbrev Str := List Char

def str (s : String) : Str := s.data

/-- Python `pat in s` would be `isPre pat` at some position; this is the
prefix test: `isPre p s` is true when `p` is a prefix of `s`. -/
def isPre : Str → Str → Bool
  | [], _ => true
  | _ :: _, [] => false
  | c :: cs, d :: ds => c == d && isPre cs ds

/-- Python `s.endswith(pat)`. -/
def hasSuffix (s pat : Str) : Bool := isPre pat.reverse s.reverse

/-- Python substring containment `pat in s`. -/
def strContainsSub (pat : Str) : Str → Bool
  | [] => isPre pat []
  | c :: cs => isPre pat (c :: cs) || strContainsSub pat cs

/-- Python `s.lower()` (the scripts only ever lower ASCII text). -/
def pyLower (s : Str) : Str := s.map Char.toLower

/-- Lexicographic strict comparison on code points, as Python `<` on `str`. -/
def strLt : Str → Str → Bool
  | [], [] => false
  | [], _ :: _ => true
  | _ :: _, [] => false
  | c :: cs, d :: ds => if c < d then true else if d < c then false else strLt cs ds

/-- Lexicographic `≤` on code points, as Python string comparison. -/
def strLe (a b : Str) : Bool := !(strLt b a)

def isPyWhitespace (c : Char) : Bool :=
  c == ' ' || c == '\t' || c == '\n' || c == '\r' || c == '\x0b' || c == '\x0c'

def dropLeadingWS : Str → Str
  | [] => []
  | c :: cs => if isPyWhitespace c then dropLeadingWS cs else c :: cs

/-- Python `s.strip()`: whitespace removed from both ends. -/
def pyStrip (s : Str) : Str := (dropLeadingWS (dropLeadingWS s).reverse).reverse

/-- Python `s.split(sep)` for a one-character separator; `"".split(",") = [""]`. -/
def splitOnChar (sep : Char) : Str → List Str
  | [] => [[]]
  | c :: cs =>
    if c == sep then [] :: splitOnChar sep cs
    else
      match splitOnChar sep cs with
      | h :: t => (c :: h) :: t
      | [] => [[c]]

/-- Python single-character `s.replace(c, r)`. -/
def pyReplaceChar (c : Char) (r : Str) : Str → Str
  | [] => []
  | x :: xs => (if x == c then r else [x]) ++ pyReplaceChar c r xs

/- ### Icon extractor (`create_index.py`, `extract_plugin_icon`) -/

/-- `os.path.splitext(p)[1]`: the extension of the last path component,
including the dot; empty when the basename has no dot or only leading dots. -/
def splitextExt (p : Str) : Str :=
  let base := (splitOnChar '/' p).getLastD []
  match base.reverse.findIdx? (fun c => c == '.') with
  | none => []
  | some r =>
    let i := base.length - 1 - r
    if (base.take i).any (fun c => c != '.') then base.drop i else []

/-- Priority 1 of `extract_plugin_icon`: the two candidate paths derived from
the `icon` field of metadata.txt, tried in order against the entry list;
result is the matched entry together with the extension used for the output
file (defaulting to `.png` when the declared path has no extension). -/
def declaredScan (names : List Str) (plugin mp : Str) : Option (Str × Str) :=
  (List.findSome? (fun c =>
      if names.contains c then
        some (c, if (splitextExt c).isEmpty then str ".png" else splitextExt c)
      else none))
    [plugin ++ '/' :: mp, mp]

/-- Priority 2 of `extract_plugin_icon`: the six conventional locations with
their fixed extensions, in source order. -/
def conventionalCandidates (plugin : Str) : List (Str × Str) :=
  [(plugin ++ str "/icons/icon.png", str ".png"),
   (plugin ++ str "/icon.png", str ".png"),
   (plugin ++ str "/icons/" ++ plugin ++ str ".png", str ".png"),
   (plugin ++ str "/icons/icon.svg", str ".svg"),
   (plugin ++ str "/icon.svg", str ".svg"),
   (plugin ++ str "/icons/" ++ plugin ++ str ".svg", str ".svg")]

def conventionalScan (names : List Str) (plugin : Str) : Option (Str × Str) :=
  (conventionalCandidates plugin).findSome? fun pe =>
    if names.contains pe.1 then some pe else none

/-- One iteration of the final `for name in zf.namelist()` loop of
`extract_plugin_icon`: the three `if`/`elif` branches applied to a single
entry, in source order; `none` both for a non-match and for the
`continue` that skips about/settings/logo files. -/
def entryHit (name : Str) : Option (Str × Str) :=
  if hasSuffix name (str "icon.png") || hasSuffix name (str "/icon.png") then
    some (name, str ".png")
  else if hasSuffix name (str "icon.svg") || hasSuffix name (str "/icon.svg") then
    some (name, str ".svg")
  else if strContainsSub (str "/icons/") name &&
      (hasSuffix name (str ".svg") || hasSuffix name (str ".png")) then
    if strContainsSub (str "about") (pyLower name) ||
       strContainsSub (str "settings") (pyLower name) ||
       strContainsSub (str "logo") (pyLower name) then none
    else some (name, if hasSuffix name (str ".svg") then str ".svg" else str ".png")
  else none

/-- Priorities 3 and 4 of `extract_plugin_icon` are a single pass over the
entry list, taking the first entry on which any branch fires. -/
def genericScan (names : List Str) : Option (Str × Str) :=
  names.findSome? entryHit

/-- The observable behaviour of a successful `extract_plugin_icon`: the
archive entry whose bytes are copied, and the returned relative output path
`icons/<plugin><ext>`. -/
def iconResult (plugin : Str) (pe : Str × Str) : Str × Str :=
  (pe.1, str "icons/" ++ plugin ++ pe.2)

/-- `extract_plugin_icon(zip_path, plugin_name, metadata_icon_path)` over the
archive's entry list: priority 1 (declared path, skipped when the argument is
absent or empty, matching Python truthiness), then priority 2 (conventional
locations), then the single-pass generic scan. -/
def extract_plugin_icon (names : List Str) (plugin : Str)
    (metaIcon : Option Str) : Option (Str × Str) :=
  let declared :=
    match metaIcon with
    | some mp => if mp.isEmpty then none else declaredScan names plugin mp
    | none => none
  match declared with
  | some pe => some (iconResult plugin pe)
  | none =>
    match conventionalScan names plugin with
    | some pe => some (iconResult plugin pe)
    | none => (genericScan names).map (iconResult plugin)

example :
    extract_plugin_icon [str "a/icon.svg", str "b/icon.png"] (str "plug") none =
      some (str "a/icon.svg", str "icons/plug.svg") := by decide

example :
    extract_plugin_icon [str "MyPlug/logo2.png", str "MyPlug/icon.png"]
      (str "MyPlug") (some (str "logo2.png")) =
      some (str "MyPlug/logo2.png", str "icons/MyPlug.png") := by decide

example : splitextExt (str "a/b.tar.gz") = str ".gz" := by decide
example : splitextExt (str "a/.bashrc") = [] := by decide

/- ### Metadata extractor (`create_index.py`, `parse_metadata`) -/

/-- The `(year, month, day, hour, minute, second)` tuple stored for a zip
entry, as consumed by `datetime(*info.date_time)`. -/
structure Date where
  year : Nat
  month : Nat
  day : Nat
  hour : Nat
  minute : Nat
  second : Nat
deriving DecidableEq, Repr

/-- A value stored in the metadata dict: descriptor fields are strings, the
injected `_metadata_date` field is a datetime. -/
inductive MetaValue where
  | strv (s : Str)
  | datev (d : Date)
deriving DecidableEq, Repr

abbrev Meta := List (Str × MetaValue)

/-- Python dict lookup on an assignment list: the last binding of a key wins
(later assignments overwrite earlier ones). -/
def dictGet (m : Meta) (k : Str) : Option MetaValue :=
  m.foldl (fun acc kv => if kv.1 == k then some kv.2 else acc) none

/-- One entry of an archive as `parse_metadata` observes it: its name, the
result of `datetime(*info.date_time)` (`none` when that call raises), and the
result of reading, decoding and parsing its content with `ConfigParser`
(`none` when any of those raise; otherwise the list of sections, each a list
of key/value string pairs with keys already lowercased by the parser). -/
structure ZipEntry where
  name : Str
  date : Option Date
  config : Option (List (Str × List (Str × Str)))
deriving DecidableEq, Repr

/-- `parse_metadata(zip_path)`: the first entry whose name ends with
`metadata.txt` is examined (the loop breaks after it); any exception along
the way is caught by the enclosing `try` while `metadata` is still `{}`, so
every failure path returns the empty dict.  On success the result is the
`general` section's pairs followed by the `_metadata_date` binding. -/
def parse_metadata (entries : List ZipEntry) : Meta :=
  match entries.find? (fun e => hasSuffix e.name (str "metadata.txt")) with
  | none => []
  | some e =>
    match e.date with
    | none => []
    | some d =>
      match e.config with
      | none => []
      | some sections =>
        match List.findSome? (fun sec =>
            if sec.1 == str "general" then some sec.2 else none) sections with
        | none => []
        | some pairs =>
          pairs.map (fun kv => (kv.1, MetaValue.strv kv.2)) ++
            [(str "_metadata_date", MetaValue.datev d)]

/-- A plugin record retained by a rendering pass: the archive's relative path
`plugins/<filename>` and its parsed metadata. -/
structure PluginRec where
  filename : Str
  meta : Meta
deriving DecidableEq, Repr

/-- The record-collection loop shared by `generate_index_html` (lines
176-204): each `.zip` file of the sorted listing is parsed and kept only when
the metadata dict is non-empty (`if metadata:`). -/
def htmlRecordsOf (listing : List (Str × List ZipEntry)) : List PluginRec :=
  listing.filterMap fun fa =>
    if hasSuffix fa.1 (str ".zip") then
      let m := parse_metadata fa.2
      if m.isEmpty then none else some ⟨str "plugins/" ++ fa.1, m⟩
    else none

/-- The corresponding loop of `generate_plugins_xml` (lines 739-751), with
the same emptiness filter. -/
def xmlRecordsOf (listing : List (Str × List ZipEntry)) : List PluginRec :=
  listing.filterMap fun fa =>
    if hasSuffix fa.1 (str ".zip") then
      let m := parse_metadata fa.2
      if m.isEmpty then none else some ⟨str "plugins/" ++ fa.1, m⟩
    else none

def pad2 (n : Nat) : String := if n < 10 then "0" ++ toString n else toString n

def pad4 (n : Nat) : String :=
  if n < 10 then "000" ++ toString n
  else if n < 100 then "00" ++ toString n
  else if n < 1000 then "0" ++ toString n
  else toString n

/-- `strftime("%Y-%m-%d")`. -/
def fmtDate (d : Date) : String := pad4 d.year ++ "-" ++ pad2 d.month ++ "-" ++ pad2 d.day

/-- The `modified` field computation of `generate_index_html` (lines
194-203): the embedded `_metadata_date` timestamp when present, else the zip
file's filesystem modification time. -/
def modifiedField (m : Meta) (zipMtime : Date) : String :=
  match dictGet m (str "_metadata_date") with
  | some (MetaValue.datev d) => fmtDate d
  | _ => fmtDate zipMtime

/- ### Catalog builder rendering helpers (`create_index.py`) -/

/-- `p.get(key, default)` for the descriptor string fields (their values are
always strings; the `datev` arm is unreachable for those keys). -/
def pgetS (m : Meta) (k dflt : Str) : Str :=
  match dictGet m k with
  | some (MetaValue.strv s) => s
  | some (MetaValue.datev _) => dflt
  | none => dflt

/-- Sort key of the HTML pass, line 207: `p.get("name", "").lower()`. -/
def htmlSortKey (r : PluginRec) : Str := pyLower (pgetS r.meta (str "name") [])

/-- Sort key of the XML pass, line 754: `p.get("name", "").lower()`. -/
def xmlSortKey (r : PluginRec) : Str := pyLower (pgetS r.meta (str "name") [])

/-- Python `list.sort(key=...)` is a stable ascending sort; a stable
insertion sort over the key order is extensionally the same function. -/
def htmlSortPlugins (rs : List PluginRec) : List PluginRec :=
  rs.insertionSort fun a b => strLe (htmlSortKey a) (htmlSortKey b) = true

def xmlSortPlugins (rs : List PluginRec) : List PluginRec :=
  rs.insertionSort fun a b => strLe (xmlSortKey a) (xmlSortKey b) = true

/-- Modelled from the spec for comparison with the code: the spec's HTML-pass
sort key, case-insensitive display name with the archive's relative path as
the stand-in for a missing name. -/
def specHtmlSortKey (r : PluginRec) : Str := pyLower (pgetS r.meta (str "name") r.filename)

/-- Modelled from the spec for comparison with the code: sorting by the
spec's claimed HTML sort key. -/
def specHtmlSortPlugins (rs : List PluginRec) : List PluginRec :=
  rs.insertionSort fun a b => strLe (specHtmlSortKey a) (specHtmlSortKey b) = true

/-- Displayed name in the HTML card, line 212: `p.get("name", p["filename"])`. -/
def htmlDisplayName (r : PluginRec) : Str := pgetS r.meta (str "name") r.filename

/-- Name attribute in the XML element, line 760: `p.get("name", "Unknown")`. -/
def xmlDisplayName (r : PluginRec) : Str := pgetS r.meta (str "name") (str "Unknown")

/-- HTML card version, line 213: `p.get("version", "Unknown")`. -/
def htmlVersion (m : Meta) : Str := pgetS m (str "version") (str "Unknown")

/-- XML element version, line 761: `p.get("version", "0.0.1")`. -/
def xmlVersion (m : Meta) : Str := pgetS m (str "version") (str "0.0.1")

/-- HTML card minimum QGIS version, line 219: `p.get("qgisminimumversion", "3.0")`. -/
def htmlQgisMin (m : Meta) : Str := pgetS m (str "qgisminimumversion") (str "3.0")

/-- XML element minimum QGIS version, line 769: `p.get("qgisminimumversion", "3.22")`. -/
def xmlQgisMin (m : Meta) : Str := pgetS m (str "qgisminimumversion") (str "3.22")

/-- Tag badge computation, lines 225-230: nothing for a falsy field;
otherwise the first five comma-separated pieces, each stripped, the empty
ones dropped. -/
def tagBadges (tags : Str) : List Str :=
  if tags.isEmpty then []
  else (((splitOnChar ',' tags).take 5).map pyStrip).filter fun t => !t.isEmpty

/-- Escaping of the `about` text, lines 763-768:
`.replace("&", "&amp;").replace("<", "&lt;").replace(">", "&gt;")`. -/
def xmlEscapeAbout (s : Str) : Str :=
  pyReplaceChar '>' (str "&gt;")
    (pyReplaceChar '<' (str "&lt;")
      (pyReplaceChar '&' (str "&amp;") s))

/-- Per-character escaping as the spec describes it: `&`, `<`, `>` replaced,
every other character (quotes included) kept. -/
def escCharSpec (c : Char) : Str :=
  if c == '&' then str "&amp;"
  else if c == '<' then str "&lt;"
  else if c == '>' then str "&gt;"
  else [c]

/- ### File size formatting (`create_index.py`, `get_file_size`) -/

/-- Python's `f"{v:.1f}"` for the nonnegative dyadic rational `n / q` (the
running value of `get_file_size` is always `size / 1024^k`, which binary
floating point represents exactly for `size < 2^53`): round `10·n/q` to the
nearest integer, ties to even, and print with one decimal digit. -/
def fmt1 (n q : Nat) : String :=
  let t := 10 * n
  let w := t / q
  let r :=
    if 2 * (t % q) < q then w
    else if q < 2 * (t % q) then w + 1
    else if w % 2 = 0 then w else w + 1
  toString (r / 10) ++ "." ++ toString (r % 10)

/-- The `for unit in [...]` loop of `get_file_size`, carrying the running
value as the exact rational `n / q` with `q` the power of 1024 divided out so
far; `size < 1024` is `n / q < 1024`, i.e. `n < 1024 * q`. -/
def sizeLoop (n : Nat) (q : Nat) : List String → String
  | [] => fmt1 n q ++ " TB"
  | u :: us => if n < 1024 * q then fmt1 n q ++ " " ++ u else sizeLoop n (1024 * q) us

/-- `get_file_size` on an archive of `bytes` bytes. -/
def get_file_size (bytes : Nat) : String :=
  sizeLoop bytes 1 ["B", "KB", "MB", "GB"]

example : get_file_size 500 = "500.0 B" := by decide
example : get_file_size 2048 = "2.0 KB" := by decide
example : get_file_size 1048576 = "1.0 MB" := by decide
example : get_file_size 1536 = "1.5 KB" := by decide

/- ### Installer (`install_plugins.py`, `install_plugin`) -/

/-- A top-level entry of the extracted temporary directory. -/
structure FsEntry where
  name : Str
  isDir : Bool
deriving DecidableEq, Repr

/-- What ends up inside the installed directory: either the single top-level
payload directory was moved, or the whole extracted tree was. -/
inductive InstalledPayload where
  | singleDir (d : FsEntry)
  | wholeTree (entries : List FsEntry)
deriving DecidableEq, Repr

/-- `install_plugin(zip_path, target_dir)` on an archive whose stem is `stem`
and whose extraction produced the top-level entries `extracted`, with `root`
the set of directory names already present in the target root.  Returns the
name of the installed directory, its payload, and the new target-root
contents (any prior directory of the chosen name removed first). -/
def install_plugin (stem : Str) (extracted : List FsEntry) (root : List Str) :
    Str × InstalledPayload × List Str :=
  match extracted.filter (fun e => e.isDir) with
  | [d] => (d.name, InstalledPayload.singleDir d, d.name :: root.filter (fun n => n ≠ d.name))
  | _ => (stem, InstalledPayload.wholeTree extracted, stem :: root.filter (fun n => n ≠ stem))

example :
    install_plugin (str "myplugin") [⟨str "plug", true⟩, ⟨str "readme.txt", false⟩] [] =
      (str "plug", InstalledPayload.singleDir ⟨str "plug", true⟩, [str "plug"]) := by decide

/- ### Order lemmas for the lexicographic string comparison -/

theorem strLt_irrefl (a : Str) : strLt a a = false := by
  induction a with
  | nil => rfl
  | cons c cs ih => simp [strLt, ih]

theorem strLt_trans : ∀ {a b c : Str},
    strLt a b = true → strLt b c = true → strLt a c = true := by
  intro a
  induction a with
  | nil =>
    intro b c hab hbc
    cases b with
    | nil => simp [strLt] at hab
    | cons y ys =>
      cases c with
      | nil => simp [strLt] at hbc
      | cons z zs => simp [strLt]
  | cons x xs ih =>
    intro b c hab hbc
    cases b with
    | nil => simp [strLt] at hab
    | cons y ys =>
      cases c with
      | nil => simp [strLt] at hbc
      | cons z zs =>
        simp only [strLt] at hab hbc ⊢
        rcases lt_trichotomy x y with hxy | hxy | hxy
        · rcases lt_trichotomy y z with hyz | hyz | hyz
          · simp [lt_trans hxy hyz]
          · subst hyz; simp [hxy]
          · simp [hyz, not_lt_of_lt hyz] at hbc
        · subst hxy
          rcases lt_trichotomy x z with hxz | hxz | hxz
          · simp [hxz]
          · subst hxz
            simp [lt_irrefl] at hab hbc ⊢
            exact ih hab hbc
          · simp [hxz, not_lt_of_lt hxz] at hbc
        · simp [hxy, not_lt_of_lt hxy] at hab

theorem strLt_conn : ∀ {a b : Str},
    strLt a b = false → strLt b a = false → a = b := by
  intro a
  induction a with
  | nil =>
    intro b hab _
    cases b with
    | nil => rfl
    | cons y ys => simp [strLt] at hab
  | cons x xs ih =>
    intro b hab hba
    cases b with
    | nil => simp [strLt] at hba
    | cons y ys =>
      simp only [strLt] at hab hba
      rcases lt_trichotomy x y with hxy | hxy | hxy
      · simp [hxy] at hab
      · subst hxy
        simp [lt_irrefl] at hab hba
        rw [ih hab hba]
      · simp [hxy, not_lt_of_lt hxy] at hba

theorem strLe_total (a b : Str) : strLe a b = true ∨ strLe b a = true := by
  by_cases h1 : strLt b a = true
  · right
    by_cases h2 : strLt a b = true
    · rcases lt_trichotomy a b with h | h | h
      · exact absurd (strLt_trans h1 h2) (by simp [strLt_irrefl])
      · exact absurd (strLt_trans h1 h2) (by simp [strLt_irrefl])
      · exact absurd (strLt_trans h1 h2) (by simp [strLt_irrefl])
    · simp [strLe, h2]
  · left; simp [strLe, h1]

theorem strLe_trans {a b c : Str}
    (h1 : strLe a b = true) (h2 : strLe b c = true) : strLe a c = true := by
  simp only [strLe, Bool.not_eq_true'] at h1 h2 ⊢
  by_contra h
  have hca : strLt c a = true := by
    cases hv : strLt c a with
    | false => exact absurd hv h
    | true => rfl
  by_cases hab : strLt a b = true
  · have : strLt c b = true := strLt_trans hca hab
    simp [this] at h2
  · have hba : strLt b a = false := h1
    have : a = b := strLt_conn (by simpa using hab) hba
    subst this
    simp [hca] at h2

/- ### Claim C6: human-readable size formatting -/

theorem string_append_assoc (a b c : String) : a ++ b ++ c = a ++ (b ++ c) := by
  apply String.ext
  simp [String.data_append, List.append_assoc]

/-- C6: `get_file_size` repeatedly divides by 1024 until the value is under
1024 and formats it with one decimal place and the unit B/KB/MB/GB/TB; in
particular 500 bytes gives "500.0 B", 2048 gives "2.0 KB" and 1048576 gives
"1.0 MB". -/
theorem c6_file_size_formatting :
    get_file_size 500 = "500.0 B" ∧
    get_file_size 2048 = "2.0 KB" ∧
    get_file_size 1048576 = "1.0 MB" ∧
    (∀ n : Nat, n < 1024 → get_file_size n = fmt1 n 1 ++ " B") ∧
    (∀ n : Nat, 1024 ≤ n → n < 1024 ^ 2 → get_file_size n = fmt1 n 1024 ++ " KB") ∧
    (∀ n : Nat, 1024 ^ 2 ≤ n → n < 1024 ^ 3 → get_file_size n = fmt1 n (1024 ^ 2) ++ " MB") ∧
    (∀ n : Nat, 1024 ^ 3 ≤ n → n < 1024 ^ 4 → get_file_size n = fmt1 n (1024 ^ 3) ++ " GB") ∧
    (∀ n : Nat, 1024 ^ 4 ≤ n → get_file_size n = fmt1 n (1024 ^ 4) ++ " TB") := by
  refine ⟨by decide, by decide, by decide, ?_, ?_, ?_, ?_, ?_⟩
  · intro n h
    simp only [get_file_size, sizeLoop]
    rw [if_pos (by omega), string_append_assoc,
      (by decide : (" " ++ "B" : String) = " B")]
  · intro n h1 h2
    norm_num at h2
    simp only [get_file_size, sizeLoop]
    rw [if_neg (by omega), if_pos (by omega), string_append_assoc,
      (by decide : (" " ++ "KB" : String) = " KB")]
  · intro n h1 h2
    norm_num at h1 h2
    simp only [get_file_size, sizeLoop]
    rw [if_neg (by omega), if_neg (by omega), if_pos (by omega), string_append_assoc,
      (by decide : (" " ++ "MB" : String) = " MB")]
    norm_num
  · intro n h1 h2
    norm_num at h1 h2
    simp only [get_file_size, sizeLoop]
    rw [if_neg (by omega), if_neg (by omega), if_neg (by omega), if_pos (by omega), string_append_assoc,
      (by decide : (" " ++ "GB" : String) = " GB")]
    norm_num
  · intro n h1
    norm_num at h1
    simp only [get_file_size, sizeLoop]
    rw [if_neg (by omega), if_neg (by omega), if_neg (by omega), if_neg (by omega)]
    norm_num

/-- Witness for C6 at concrete sizes, one per hypothesis-bearing clause. -/
theorem c6_file_size_formatting_witness :
    get_file_size 500 = fmt1 500 1 ++ " B" ∧
    get_file_size 2048 = fmt1 2048 1024 ++ " KB" ∧
    get_file_size 1048576 = fmt1 1048576 (1024 ^ 2) ++ " MB" ∧
    get_file_size 1073741824 = fmt1 1073741824 (1024 ^ 3) ++ " GB" ∧
    get_file_size 1099511627776 = fmt1 1099511627776 (1024 ^ 4) ++ " TB" := by
  refine ⟨?_, ?_, ?_, ?_, ?_⟩
  · exact c6_file_size_formatting.2.2.2.1 500 (by norm_num)
  · exact c6_file_size_formatting.2.2.2.2.1 2048 (by norm_num) (by norm_num)
  · exact c6_file_size_formatting.2.2.2.2.2.1 1048576 (by norm_num) (by norm_num)
  · exact c6_file_size_formatting.2.2.2.2.2.2.1 1073741824 (by norm_num) (by norm_num)
  · exact c6_file_size_formatting.2.2.2.2.2.2.2 1099511627776 (by norm_num)

/- ### Claim C7: tag badge rendering -/

/-- C7: the tags field is comma-split, pieces trimmed and empty pieces
dropped, and at most 5 badges are emitted; an 8-tag field yields exactly the
first 5. -/
theorem c7_tag_badges :
    (∀ tags : Str, (tagBadges tags).length ≤ 5) ∧
    (∀ tags : Str, ∀ b ∈ tagBadges tags,
      b ≠ [] ∧ b ∈ (splitOnChar ',' tags).map pyStrip) ∧
    tagBadges (str "t1,t2,t3,t4,t5,t6,t7,t8") =
      [str "t1", str "t2", str "t3", str "t4", str "t5"] ∧
    tagBadges (str "a, ,b,,c") = [str "a", str "b", str "c"] := by
  refine ⟨?_, ?_, by decide, by decide⟩
  · intro tags
    unfold tagBadges
    split
    · simp
    · refine le_trans (List.length_filter_le _ _) ?_
      rw [List.length_map]
      exact List.length_take_le 5 _
  · intro tags b hb
    unfold tagBadges at hb
    split at hb
    · simp at hb
    · rw [List.mem_filter] at hb
      obtain ⟨hmem, hne⟩ := hb
      refine ⟨by simpa [List.isEmpty_iff] using hne, ?_⟩
      rw [List.mem_map] at hmem ⊢
      obtain ⟨x, hx, rfl⟩ := hmem
      exact ⟨x, (List.take_sublist 5 _).subset hx, rfl⟩

/-- Witness for C7: a concrete badge satisfies the membership clause. -/
theorem c7_tag_badges_witness :
    str "a" ≠ ([] : Str) ∧
    str "a" ∈ (splitOnChar ',' (str " a , b ")).map pyStrip := by
  exact c7_tag_badges.2.1 (str " a , b ") (str "a") (by decide)

/- ### Claim C8: XML about-field escaping -/

/-- Modelled from the spec for comparison with the code: the whole-string
per-character escape the spec describes. -/
def escSpec : Str → Str
  | [] => []
  | c :: cs => escCharSpec c ++ escSpec cs

theorem pyReplaceChar_append (c : Char) (r a b : Str) :
    pyReplaceChar c r (a ++ b) = pyReplaceChar c r a ++ pyReplaceChar c r b := by
  induction a with
  | nil => rfl
  | cons x xs ih => simp [pyReplaceChar, ih]

theorem xmlEscapeAbout_cons (c : Char) (cs : Str) :
    xmlEscapeAbout (c :: cs) = escCharSpec c ++ xmlEscapeAbout cs := by
  unfold xmlEscapeAbout
  simp only [pyReplaceChar, pyReplaceChar_append]
  congr 1
  by_cases h1 : c = '&'
  · subst h1; decide
  by_cases h2 : c = '<'
  · subst h2; decide
  by_cases h3 : c = '>'
  · subst h3; decide
  simp [pyReplaceChar, escCharSpec, h1, h2, h3]

/-- C8: the about text's escaping replaces every `&` by `&amp;`, `<` by
`&lt;` and `>` by `&gt;` and leaves every other character — quotes included —
unchanged; concretely shown on a mixed string, on double quotes, and on the
single-quote character (code point 39). -/
theorem c8_xml_about_escaping :
    (∀ s : Str, xmlEscapeAbout s = escSpec s) ∧
    xmlEscapeAbout (str "a<b>c&d") = str "a&lt;b&gt;c&amp;d" ∧
    xmlEscapeAbout (str "say \"hi\"") = str "say \"hi\"" ∧
    xmlEscapeAbout [Char.ofNat 39] = [Char.ofNat 39] := by
  refine ⟨?_, by decide, by decide, by decide⟩
  intro s
  induction s with
  | nil => rfl
  | cons c cs ih => rw [xmlEscapeAbout_cons, ih]; rfl

/- ### Claim C10: diverging HTML/XML defaults -/

/-- C10: every record lacking `version` — whatever its other fields —
renders as "Unknown" in the HTML card but "0.0.1" in the XML element, and
every record lacking `qgisminimumversion` renders as "3.0" in HTML but
"3.22" in XML: the two renderers apply independent, different defaults per
missing field. -/
theorem c10_default_divergence :
    (∀ m : Meta, dictGet m (str "version") = none →
       htmlVersion m = str "Unknown" ∧ xmlVersion m = str "0.0.1" ∧
       htmlVersion m ≠ xmlVersion m) ∧
    (∀ m : Meta, dictGet m (str "qgisminimumversion") = none →
       htmlQgisMin m = str "3.0" ∧ xmlQgisMin m = str "3.22" ∧
       htmlQgisMin m ≠ xmlQgisMin m) := by
  constructor
  · intro m hv
    simp [htmlVersion, xmlVersion, pgetS, hv]
    decide
  · intro m hq
    simp [htmlQgisMin, xmlQgisMin, pgetS, hq]
    decide

/-- Witness for C10 on two records each lacking exactly one of the two
fields: one has `qgisminimumversion` but no `version`, the other has
`version` but no `qgisminimumversion`. -/
theorem c10_default_divergence_witness :
    htmlVersion [(str "qgisminimumversion", MetaValue.strv (str "3.28"))] =
      str "Unknown" ∧
    xmlVersion [(str "qgisminimumversion", MetaValue.strv (str "3.28"))] =
      str "0.0.1" ∧
    htmlQgisMin [(str "version", MetaValue.strv (str "1.0"))] = str "3.0" ∧
    xmlQgisMin [(str "version", MetaValue.strv (str "1.0"))] = str "3.22" := by
  have h1 := c10_default_divergence.1
    [(str "qgisminimumversion", MetaValue.strv (str "3.28"))] (by decide)
  have h2 := c10_default_divergence.2
    [(str "version", MetaValue.strv (str "1.0"))] (by decide)
  exact ⟨h1.1, h1.2.1, h2.1, h2.2.1⟩

/- ### Claim C3: icon search priority chain -/

/-- C3: the declared icon path is tried first as `<plugin>/<path>` then as a
literal path, and a declared-path hit decides the result (the conventional
locations are never consulted); when the declared path is absent or fails,
a conventional-location hit decides the result (the generic scan is never
consulted). -/
theorem c3_icon_priority_chain (names : List Str) (plugin : Str) :
    (∀ mp, mp ≠ [] → (declaredScan names plugin mp).isSome = true →
       extract_plugin_icon names plugin (some mp) =
         (declaredScan names plugin mp).map (iconResult plugin)) ∧
    (∀ mp, (plugin ++ '/' :: mp) ∈ names →
       declaredScan names plugin mp =
         some (plugin ++ '/' :: mp,
           if (splitextExt (plugin ++ '/' :: mp)).isEmpty then str ".png"
           else splitextExt (plugin ++ '/' :: mp))) ∧
    (∀ mp, (plugin ++ '/' :: mp) ∉ names → mp ∈ names →
       declaredScan names plugin mp =
         some (mp, if (splitextExt mp).isEmpty then str ".png" else splitextExt mp)) ∧
    (∀ metaIcon : Option Str,
       (∀ mp, metaIcon = some mp → mp = [] ∨ declaredScan names plugin mp = none) →
       (conventionalScan names plugin).isSome = true →
       extract_plugin_icon names plugin metaIcon =
         (conventionalScan names plugin).map (iconResult plugin)) := by
  refine ⟨?_, ?_, ?_, ?_⟩
  · intro mp hne hsome
    obtain ⟨pe, hpe⟩ := Option.isSome_iff_exists.mp hsome
    have hne' : mp.isEmpty = false := by simpa [List.isEmpty_iff] using hne
    simp [extract_plugin_icon, hne', hpe]
  · intro mp hmem
    simp [declaredScan, List.contains, hmem]
  · intro mp hnot hmem
    simp [declaredScan, List.contains, hnot, hmem]
  · intro mi hd hsome
    obtain ⟨pe, hpe⟩ := Option.isSome_iff_exists.mp hsome
    cases mi with
    | none => simp [extract_plugin_icon, hpe]
    | some mp =>
      rcases hd mp rfl with h | h
      · subst h; simp [extract_plugin_icon, hpe]
      · simp [extract_plugin_icon, h, hpe]

/-- Witness for C3: a declared-path hit beats a present conventional
location, and a conventional hit beats an earlier generic-scan match. -/
theorem c3_icon_priority_chain_witness :
    extract_plugin_icon [str "MyPlug/logo2.png", str "MyPlug/icon.png"]
        (str "MyPlug") (some (str "logo2.png")) =
      some (str "MyPlug/logo2.png", str "icons/MyPlug.png") ∧
    extract_plugin_icon [str "zz/icon.svg", str "MyPlug/icon.png"]
        (str "MyPlug") none =
      some (str "MyPlug/icon.png", str "icons/MyPlug.png") := by
  constructor
  · have h := (c3_icon_priority_chain [str "MyPlug/logo2.png", str "MyPlug/icon.png"]
      (str "MyPlug")).1 (str "logo2.png") (by decide) (by decide)
    rw [h]; decide
  · have h := (c3_icon_priority_chain [str "zz/icon.svg", str "MyPlug/icon.png"]
      (str "MyPlug")).2.2.2 none (by intro mp hmp; cases hmp) (by decide)
    rw [h]; decide

/- ### Claim C1: the generic scan is a single pass, not png-then-svg -/

/-- C1 counterexample: with the declared and conventional checks failing and
an entry ending in `icon.png` present, the extracted icon is nevertheless the
earlier `icon.svg` entry, because the scan is one pass with per-entry branch
tests, not a png pass followed by an svg pass. -/
theorem c1_counterexample :
    extract_plugin_icon [str "a/icon.svg", str "b/icon.png"] (str "plug") none =
      some (str "a/icon.svg", str "icons/plug.svg") ∧
    hasSuffix (str "b/icon.png") (str "icon.png") = true ∧
    extract_plugin_icon [str "a/icon.svg", str "b/icon.png"] (str "plug") none ≠
      some (str "b/icon.png", str "icons/plug.png") := by decide

theorem findSome?_first {α β : Type} (f : α → Option β) :
    ∀ (l : List α) (b : β), l.findSome? f = some b →
      ∃ i : Fin l.length, f (l.get i) = some b ∧
        ∀ j : Fin l.length, j.val < i.val → f (l.get j) = none := by
  intro l
  induction l with
  | nil => intro b h; simp at h
  | cons a as ih =>
    intro b h
    cases hfa : f a with
    | some c =>
      rw [List.findSome?_cons_of_isSome _ (by simp [hfa])] at h
      refine ⟨⟨0, by simp⟩, ?_, ?_⟩
      · simpa [hfa] using h
      · intro j hj; simp at hj
    | none =>
      rw [List.findSome?_cons_of_isNone _ (by simp [hfa])] at h
      obtain ⟨i, hi, hj⟩ := ih b h
      refine ⟨⟨i.val + 1, by simp [i.isLt]⟩, by simpa using hi, ?_⟩
      intro j hlt
      match j with
      | ⟨0, _⟩ => simpa using hfa
      | ⟨k + 1, hk⟩ =>
        have hk' : k < as.length := by simpa using hk
        have := hj ⟨k, hk'⟩ (by simpa using hlt)
        simpa using this

/-- C1 amended: when the declared-path and conventional-location checks fail,
`extract_plugin_icon` performs one pass over the entry list and extracts the
first entry on which any of the three per-entry branch tests fires (png
suffix, svg suffix, `/icons/` file not named about/settings/logo) — so an
earlier `icon.svg` entry is chosen over a later `icon.png` entry. -/
theorem c1_generic_scan_first_match (names : List Str) (plugin : Str)
    (hconv : conventionalScan names plugin = none) :
    extract_plugin_icon names plugin none =
      (genericScan names).map (iconResult plugin) ∧
    (∀ pe, genericScan names = some pe →
      ∃ i : Fin names.length, entryHit (names.get i) = some pe ∧
        ∀ j : Fin names.length, j.val < i.val → entryHit (names.get j) = none) ∧
    (genericScan names = none → ∀ n ∈ names, entryHit n = none) := by
  refine ⟨?_, ?_, ?_⟩
  · simp [extract_plugin_icon, hconv]
  · intro pe h
    exact findSome?_first entryHit names pe h
  · intro h n hn
    exact List.findSome?_eq_none_iff.mp h n hn

/-- Witness for C1 at a concrete entry list whose conventional candidates
are all absent. -/
theorem c1_generic_scan_first_match_witness :
    extract_plugin_icon [str "zz/pics/about.png", str "p/icon.svg"]
        (str "plug") none =
      some (str "p/icon.svg", str "icons/plug.svg") := by
  have h := (c1_generic_scan_first_match [str "zz/pics/about.png", str "p/icon.svg"]
    (str "plug") (by decide)).1
  rw [h]; decide

/- ### Claim C4: installer placement -/

/-- C4 counterexample: an archive extracting to multiple top-level entries
(one directory plus one file) is not installed as an archive-stem directory
containing all of them; the single directory alone is moved under its own
name. -/
theorem c4_counterexample :
    install_plugin (str "myplugin")
        [⟨str "plug", true⟩, ⟨str "readme.txt", false⟩]
        [str "plug", str "other"] =
      (str "plug", InstalledPayload.singleDir ⟨str "plug", true⟩,
        [str "plug", str "other"]) ∧
    str "plug" ≠ str "myplugin" ∧
    InstalledPayload.singleDir ⟨str "plug", true⟩ ≠
      InstalledPayload.wholeTree [⟨str "plug", true⟩, ⟨str "readme.txt", false⟩] := by
  decide

theorem mem_newRoot (name : Str) (root : List Str) :
    name ∈ name :: root.filter (fun n => n ≠ name) ∧
    ∀ x ∈ name :: root.filter (fun n => n ≠ name),
      x = name ∨ (x ∈ root ∧ x ≠ name) := by
  constructor
  · exact List.mem_cons_self _ _
  · intro x hx
    rcases List.mem_cons.mp hx with h | h
    · left; exact h
    · right
      rw [List.mem_filter] at h
      exact ⟨h.1, by simpa using h.2⟩

/-- C4 amended: the branch is decided by the number of top-level
directories, files ignored: exactly one top-level directory is moved into
the target root under its own name (top-level files alongside it are
discarded with the temp directory); zero or two-or-more top-level
directories install the whole extracted tree under the archive stem.  In
both cases any prior same-named directory is removed and the rest of the
target root is kept. -/
theorem c4_install_placement (stem : Str) (extracted : List FsEntry)
    (root : List Str) :
    (∀ d, extracted.filter (fun e => e.isDir) = [d] →
       install_plugin stem extracted root =
         (d.name, InstalledPayload.singleDir d,
           d.name :: root.filter (fun n => n ≠ d.name))) ∧
    ((extracted.filter (fun e => e.isDir)).length ≠ 1 →
       install_plugin stem extracted root =
         (stem, InstalledPayload.wholeTree extracted,
           stem :: root.filter (fun n => n ≠ stem))) ∧
    (∀ name payload newRoot,
       install_plugin stem extracted root = (name, payload, newRoot) →
       name ∈ newRoot ∧ ∀ x ∈ newRoot, x = name ∨ (x ∈ root ∧ x ≠ name)) := by
  refine ⟨?_, ?_, ?_⟩
  · intro d hd
    unfold install_plugin
    rw [hd]
  · intro hlen
    unfold install_plugin
    rcases hf : extracted.filter (fun e => e.isDir) with _ | ⟨x, _ | ⟨y, ys⟩⟩
    · rw [hf]
    · rw [hf] at hlen; simp at hlen
    · rw [hf]
  · intro name payload newRoot h
    unfold install_plugin at h
    rcases hf : extracted.filter (fun e => e.isDir) with _ | ⟨x, _ | ⟨y, ys⟩⟩ <;>
      rw [hf] at h <;>
      injection h with h1 h2 <;>
      injection h2 with h2 h3 <;>
      subst h1 <;> subst h3 <;>
      exact mem_newRoot _ root

/-- Witness for C4: a lone top-level directory is moved under its own name
with the prior copy removed; two top-level files go under the stem name. -/
theorem c4_install_placement_witness :
    install_plugin (str "stem") [⟨str "only", true⟩] [str "only", str "keep"] =
      (str "only", InstalledPayload.singleDir ⟨str "only", true⟩,
        [str "only", str "keep"]) ∧
    install_plugin (str "stem") [⟨str "f1", false⟩, ⟨str "f2", false⟩]
        [str "stem"] =
      (str "stem", InstalledPayload.wholeTree [⟨str "f1", false⟩, ⟨str "f2", false⟩],
        [str "stem"]) := by
  constructor
  · have h := (c4_install_placement (str "stem") [⟨str "only", true⟩]
      [str "only", str "keep"]).1 ⟨str "only", true⟩ (by decide)
    rw [h]; decide
  · have h := (c4_install_placement (str "stem")
      [⟨str "f1", false⟩, ⟨str "f2", false⟩] [str "stem"]).2.1 (by decide)
    rw [h]; decide

/- ### Claim C5: metadata failure policy -/

/-- C5: when no entry name ends with `metadata.txt`, or the first such entry
fails to yield a date or a parsed configuration, or the parsed configuration
has no `general` section, `parse_metadata` returns the empty mapping, and an
archive with empty metadata contributes no record to the HTML pass or the
XML pass. -/
theorem c5_metadata_failure_policy :
    (∀ entries : List ZipEntry,
       (∀ e ∈ entries, hasSuffix e.name (str "metadata.txt") = false) →
       parse_metadata entries = []) ∧
    (∀ entries : List ZipEntry, ∀ e : ZipEntry,
       entries.find? (fun e => hasSuffix e.name (str "metadata.txt")) = some e →
       (e.date = none ∨ e.config = none ∨
         (∀ sections, e.config = some sections →
            ∀ sec ∈ sections, sec.1 ≠ str "general")) →
       parse_metadata entries = []) ∧
    (∀ l1 l2 : List (Str × List ZipEntry), ∀ fn ar,
       parse_metadata ar = [] →
       htmlRecordsOf (l1 ++ (fn, ar) :: l2) = htmlRecordsOf (l1 ++ l2) ∧
       xmlRecordsOf (l1 ++ (fn, ar) :: l2) = xmlRecordsOf (l1 ++ l2)) := by
  refine ⟨?_, ?_, ?_⟩
  · intro entries h
    have hfind : entries.find? (fun e => hasSuffix e.name (str "metadata.txt")) = none := by
      rw [List.find?_eq_none]
      intro e he
      simp [h e he]
    simp [parse_metadata, hfind]
  · intro entries e hfind hd
    rcases hd with h | h | h
    · simp [parse_metadata, hfind, h]
    · cases hdate : e.date with
      | none => simp [parse_metadata, hfind, hdate]
      | some d => simp [parse_metadata, hfind, hdate, h]
    · cases hdate : e.date with
      | none => simp [parse_metadata, hfind, hdate]
      | some d =>
        cases hcfg : e.config with
        | none => simp [parse_metadata, hfind, hdate, hcfg]
        | some sections =>
          have hgen : List.findSome?
              (fun sec => if sec.1 = str "general" then some sec.2 else none)
              sections = none := by
            rw [List.findSome?_eq_none_iff]
            intro sec hsec
            simp [h sections hcfg sec hsec]
          simp [parse_metadata, hfind, hdate, hcfg, hgen]
  · intro l1 l2 fn ar h
    have hmid : ∀ f : (Str × List ZipEntry) → Option PluginRec,
        (f (fn, ar) = none) →
        List.filterMap f (l1 ++ (fn, ar) :: l2) = List.filterMap f (l1 ++ l2) := by
      intro f hf
      rw [List.filterMap_append, List.filterMap_append, List.filterMap_cons, hf]
    constructor
    · exact hmid _ (by simp [h])
    · exact hmid _ (by simp [h])

/-- Witness for C5 on three concrete failing archives (no descriptor entry,
unparsable descriptor, descriptor missing the general section) inside a
listing that also holds one valid archive. -/
theorem c5_metadata_failure_policy_witness :
    parse_metadata [⟨str "p/code.py", none, none⟩] = [] ∧
    parse_metadata [⟨str "p/metadata.txt", some ⟨2024, 1, 2, 3, 4, 5⟩, none⟩] = [] ∧
    parse_metadata [⟨str "p/metadata.txt", some ⟨2024, 1, 2, 3, 4, 5⟩,
      some [(str "other", [])]⟩] = [] ∧
    htmlRecordsOf [(str "bad.zip", [⟨str "p/code.py", none, none⟩])] = [] ∧
    xmlRecordsOf [(str "bad.zip", [⟨str "p/code.py", none, none⟩])] = [] := by
  refine ⟨?_, ?_, ?_, ?_, ?_⟩
  · exact c5_metadata_failure_policy.1 [⟨str "p/code.py", none, none⟩] (by decide)
  · exact c5_metadata_failure_policy.2.1 _ ⟨str "p/metadata.txt", some ⟨2024, 1, 2, 3, 4, 5⟩, none⟩
      (by decide) (Or.inr (Or.inl rfl))
  · refine c5_metadata_failure_policy.2.1 _ ⟨str "p/metadata.txt", some ⟨2024, 1, 2, 3, 4, 5⟩,
      some [(str "other", [])]⟩ (by decide) (Or.inr (Or.inr ?_))
    intro sections hs sec hsec
    cases hs
    simp at hsec
    subst hsec
    decide
  · have h := (c5_metadata_failure_policy.2.2 [] [] (str "bad.zip")
      [⟨str "p/code.py", none, none⟩] (by decide)).1
    simpa using h
  · have h := (c5_metadata_failure_policy.2.2 [] [] (str "bad.zip")
      [⟨str "p/code.py", none, none⟩] (by decide)).2
    simpa using h

/- ### Claim C9: the `_metadata_date` invariant -/

theorem dictGet_append_single (m : Meta) (k : Str) (v : MetaValue) :
    dictGet (m ++ [(k, v)]) k = some v := by
  unfold dictGet
  rw [List.foldl_append]
  simp

/-- C9: every non-empty `parse_metadata` result binds `_metadata_date` to the
descriptor entry's embedded timestamp, so for every retained record the
displayed date comes from that timestamp and the fallback to the archive
file's modification time is never taken (the result does not depend on the
file's mtime). -/
theorem c9_metadata_date_invariant :
    (∀ entries : List ZipEntry, parse_metadata entries ≠ [] →
       ∃ d : Date, dictGet (parse_metadata entries) (str "_metadata_date") =
         some (MetaValue.datev d)) ∧
    (∀ m : Meta, ∀ mtime d : Date,
       dictGet m (str "_metadata_date") = some (MetaValue.datev d) →
       modifiedField m mtime = fmtDate d) ∧
    (∀ entries : List ZipEntry, ∀ mtime1 mtime2 : Date,
       parse_metadata entries ≠ [] →
       modifiedField (parse_metadata entries) mtime1 =
         modifiedField (parse_metadata entries) mtime2) := by
  have key : ∀ entries : List ZipEntry, parse_metadata entries ≠ [] →
      ∃ d : Date, dictGet (parse_metadata entries) (str "_metadata_date") =
        some (MetaValue.datev d) := by
    intro entries h
    cases hfind : entries.find? (fun e => hasSuffix e.name (str "metadata.txt")) with
    | none => simp [parse_metadata, hfind] at h
    | some e =>
      cases hdate : e.date with
      | none => simp [parse_metadata, hfind, hdate] at h
      | some d =>
        cases hcfg : e.config with
        | none => simp [parse_metadata, hfind, hdate, hcfg] at h
        | some sections =>
          cases hgen : List.findSome?
              (fun sec => if sec.1 = str "general" then some sec.2 else none)
              sections with
          | none => simp [parse_metadata, hfind, hdate, hcfg, hgen] at h
          | some pairs =>
            refine ⟨d, ?_⟩
            have heq : parse_metadata entries =
                pairs.map (fun kv => (kv.1, MetaValue.strv kv.2)) ++
                  [(str "_metadata_date", MetaValue.datev d)] := by
              simp [parse_metadata, hfind, hdate, hcfg, hgen]
            rw [heq]
            exact dictGet_append_single _ _ _
  have vmod : ∀ m : Meta, ∀ mtime d : Date,
      dictGet m (str "_metadata_date") = some (MetaValue.datev d) →
      modifiedField m mtime = fmtDate d := by
    intro m mtime d h
    simp [modifiedField, h]
  refine ⟨key, vmod, ?_⟩
  intro entries mtime1 mtime2 h
  obtain ⟨d, hd⟩ := key entries h
  rw [vmod _ _ _ hd, vmod _ _ _ hd]

/-- Witness for C9 on a concrete archive with a valid descriptor. -/
theorem c9_metadata_date_invariant_witness :
    (∃ d : Date, dictGet (parse_metadata [⟨str "p/metadata.txt",
        some ⟨2024, 3, 4, 0, 0, 0⟩,
        some [(str "general", [(str "name", str "Foo")])]⟩])
      (str "_metadata_date") = some (MetaValue.datev d)) ∧
    modifiedField (parse_metadata [⟨str "p/metadata.txt", some ⟨2024, 3, 4, 0, 0, 0⟩,
        some [(str "general", [(str "name", str "Foo")])]⟩]) ⟨1999, 1, 1, 0, 0, 0⟩ =
      fmtDate ⟨2024, 3, 4, 0, 0, 0⟩ := by
  constructor
  · exact c9_metadata_date_invariant.1
      [⟨str "p/metadata.txt", some ⟨2024, 3, 4, 0, 0, 0⟩,
        some [(str "general", [(str "name", str "Foo")])]⟩] (by decide)
  · exact c9_metadata_date_invariant.2.1 _ _ _ (by decide)

/- ### Claim C2: catalog sort keys -/

def recAlpha : PluginRec :=
  ⟨str "plugins/a.zip", [(str "name", MetaValue.strv (str "Alpha"))]⟩

def recZeta : PluginRec :=
  ⟨str "plugins/z.zip", [(str "name", MetaValue.strv (str "zeta"))]⟩

def recNoName : PluginRec :=
  ⟨str "plugins/zzz.zip", [(str "description", MetaValue.strv (str "x"))]⟩

/-- C2 counterexample: a record without a `name` field does not sort by the
archive's relative path in the HTML pass; its sort key is the empty string,
so it sorts before "Alpha" although its path "plugins/zzz.zip" would sort
after. -/
theorem c2_counterexample :
    htmlSortPlugins [recAlpha, recNoName] = [recNoName, recAlpha] ∧
    specHtmlSortPlugins [recAlpha, recNoName] = [recAlpha, recNoName] ∧
    ([recNoName, recAlpha] : List PluginRec) ≠ [recAlpha, recNoName] := by
  decide

/-- C2 amended: both passes sort case-insensitively by the `name` field with
the empty string — not the archive path or "Unknown" — as the stand-in key
for a missing name; the sorted output is ordered under that key and is a
permutation of the input, "Alpha" precedes "zeta", and the archive-path and
"Unknown" defaults apply to the displayed name (HTML and XML respectively),
not to the sort key. -/
theorem c2_sort_key_both_passes :
    (∀ r : PluginRec, htmlSortKey r = xmlSortKey r) ∧
    (∀ r : PluginRec, dictGet r.meta (str "name") = none →
       htmlSortKey r = [] ∧ xmlSortKey r = []) ∧
    (∀ rs : List PluginRec,
       List.Sorted (fun a b => strLe (htmlSortKey a) (htmlSortKey b) = true)
         (htmlSortPlugins rs) ∧
       (htmlSortPlugins rs).Perm rs) ∧
    (∀ rs : List PluginRec,
       List.Sorted (fun a b => strLe (xmlSortKey a) (xmlSortKey b) = true)
         (xmlSortPlugins rs) ∧
       (xmlSortPlugins rs).Perm rs) ∧
    htmlSortPlugins [recZeta, recAlpha] = [recAlpha, recZeta] ∧
    xmlSortPlugins [recZeta, recAlpha] = [recAlpha, recZeta] ∧
    (∀ r : PluginRec, dictGet r.meta (str "name") = none →
       htmlDisplayName r = r.filename ∧ xmlDisplayName r = str "Unknown") := by
  refine ⟨?_, ?_, ?_, ?_, by decide, by decide, ?_⟩
  · intro r; rfl
  · intro r h
    constructor <;> simp [htmlSortKey, xmlSortKey, pgetS, h, pyLower]
  · intro rs
    haveI : IsTotal PluginRec
        (fun a b => strLe (htmlSortKey a) (htmlSortKey b) = true) :=
      ⟨fun a b => strLe_total _ _⟩
    haveI : IsTrans PluginRec
        (fun a b => strLe (htmlSortKey a) (htmlSortKey b) = true) :=
      ⟨fun _ _ _ hab hbc => strLe_trans hab hbc⟩
    exact ⟨List.sorted_insertionSort _ _, List.perm_insertionSort _ _⟩
  · intro rs
    haveI : IsTotal PluginRec
        (fun a b => strLe (xmlSortKey a) (xmlSortKey b) = true) :=
      ⟨fun a b => strLe_total _ _⟩
    haveI : IsTrans PluginRec
        (fun a b => strLe (xmlSortKey a) (xmlSortKey b) = true) :=
      ⟨fun _ _ _ hab hbc => strLe_trans hab hbc⟩
    exact ⟨List.sorted_insertionSort _ _, List.perm_insertionSort _ _⟩
  · intro r h
    constructor <;> simp [htmlDisplayName, xmlDisplayName, pgetS, h]

/-- Witness for C2 on the concrete nameless record. -/
theorem c2_sort_key_both_passes_witness :
    htmlSortKey recNoName = [] ∧ xmlSortKey recNoName = [] ∧
    htmlDisplayName recNoName = str "plugins/zzz.zip" ∧
    xmlDisplayName recNoName = str "Unknown" := by
  have h1 := c2_sort_key_both_passes.2.1 recNoName (by decide)
  have h2 := c2_sort_key_both_passes.2.2.2.2.2.2 recNoName (by decide)
  exact ⟨h1.1, h1.2, h2.1, h2.2⟩
